import Mathlib

/-!
Shallow embedding of the `serde-iop` TLV codec (crate `serde-iop` of the
repository): the wire taxonomy (`src/wire.rs`), the primitive packer
(`serde-iop/src/ser/pack.rs`), the serializer (`serde-iop/src/ser/mod.rs`),
the binary reader (`serde-iop/src/de/read.rs`) and the deserializer entry
points (`serde-iop/src/de/mod.rs`).

Bytes are modelled as `Nat` values kept below 256 by construction (every
place the Rust code casts to `u8`/`u16`/`u32`/`u64` inserts the matching
`% 2^w`).  Machine integers are modelled by their unsigned bit image
(`Nat` below `2^w`) or, where the Rust code manipulates signed values, by
`Int` with explicit two's-complement conversions.  Fallible reader methods
take and return the reader state explicitly (mirroring `&mut self`), so
state mutations that happen before an error are preserved exactly as in
the Rust code.
-/

namespace SerdeIop

/-- Wire classes, from `src/wire.rs` (`enum Wire`, `#[repr(u8)]`, values
`k << 5`). -/
inductive Wire
  | BLK1
  | BLK2
  | BLK4
  | QUAD
  | INT1
  | INT2
  | INT4
  | REPEAT
deriving DecidableEq, Repr

/-- Discriminant index of a wire class (the `k` of `k << 5`). -/
def Wire.idx : Wire → Nat
  | .BLK1 => 0
  | .BLK2 => 1
  | .BLK4 => 2
  | .QUAD => 3
  | .INT1 => 4
  | .INT2 => 5
  | .INT4 => 6
  | .REPEAT => 7

/-- Byte value of a wire class (`Wire as u8`), i.e. `idx << 5`. -/
def Wire.toByte (w : Wire) : Nat := w.idx <<< 5

/-- Conversion of a byte to a wire class, from `impl From<u8> for Wire`
(`match v >> 5`).  The catch-all arm mirrors `unreachable!()`: for byte
inputs (`b < 256`) the shifted value is always below 8 and the arm is
never taken. -/
def Wire.ofByte (b : Nat) : Wire :=
  match b >>> 5 with
  | 0 => .BLK1
  | 1 => .BLK2
  | 2 => .BLK4
  | 3 => .QUAD
  | 4 => .INT1
  | 5 => .INT2
  | 6 => .INT4
  | 7 => .REPEAT
  | _ => .REPEAT

/-- Error kinds, from `serde-iop/src/error.rs` (`enum Error`). -/
inductive Error
  | Unimplemented (what : String)
  | MissingTag
  | UnknownLen
  | InputTooShort
  | InvalidEncoding
  | TrailingCharacters
  | Custom (msg : String)
deriving DecidableEq, Repr

/-! ## Little-endian byte images -/

/-- Little-endian byte image of width `w` of a number (`to_le_bytes` after
truncation to `w` bytes). -/
def leBytes : Nat → Nat → List Nat
  | 0, _ => []
  | w + 1, v => v % 256 :: leBytes w (v / 256)

/-- Unsigned value of a little-endian byte list (`from_le_bytes`). -/
def fromLE : List Nat → Nat
  | [] => 0
  | b :: rest => b + 256 * fromLE rest

/-- Two's-complement reading of an unsigned `w`-bit image. -/
def toSigned (width : Nat) (u : Nat) : Int :=
  if u < 2 ^ (width - 1) then (u : Int) else (u : Int) - 2 ^ width

/-! ## Primitive packer (`serde-iop/src/ser/pack.rs`) -/

/-- Number of base-256 digits, the count computed by the
`while value != 0 { cnt += 1; value >>= 8 }` loop in
`required_space_for_i32`. -/
def byteCount (v : Nat) : Nat :=
  if v = 0 then 0 else byteCount (v / 256) + 1
termination_by v
decreasing_by exact Nat.div_lt_self (Nat.pos_of_ne_zero (by assumption)) (by omega)

/-- Zigzag image `((value >> 31) ^ (value << 1)) as u32` computed on the
unsigned 32-bit image `u` of the `i32` argument: the arithmetic right
shift by 31 yields all-ones exactly when the sign bit is set. -/
def zigzag32 (u : Nat) : Nat :=
  Nat.xor (if 2 ^ 31 ≤ u then 2 ^ 32 - 1 else 0) (2 * u % 2 ^ 32)

/-- Byte count chosen by `required_space_for_i32` (argument given as the
unsigned 32-bit image of the `i32`); the `| 1` makes the result at
least 1. -/
def required_space_for_i32 (u : Nat) : Nat :=
  byteCount (Nat.lor (zigzag32 u) 1)

/-- Extra tag bytes of a header, from `tag_len`. -/
def tag_len (tag : Nat) : Nat :=
  if tag ≤ 29 then 0 else if tag ≤ 255 then 1 else 2

/-- Header bytes written by `set_tag` (and appended by `push_tag`):
first byte `(wire << 5) | t5`, then 0, 1 or 2 extra tag bytes. -/
def set_tag (wiretype : Wire) (tag : Nat) : List Nat :=
  if tag ≤ 29 then [Nat.lor wiretype.toByte tag]
  else if tag ≤ 255 then [Nat.lor wiretype.toByte 30, tag % 256]
  else Nat.lor wiretype.toByte 31 :: leBytes 2 tag

/-- Bytes appended by `push_tag` (which reserves `tag_len tag + 1` bytes
and fills them with `set_tag`). -/
def push_tag (wiretype : Wire) (tag : Nat) : List Nat := set_tag wiretype tag

/-- Bytes appended by `push_byte`. -/
def push_byte (tag : Nat) (value : Nat) : List Nat :=
  push_tag .INT1 tag ++ [value % 256]

/-- Bytes appended by `push_i32`; the argument is the unsigned 32-bit
image of the `i32` value, so the `as i8` / `as i16` truncating casts are
the 1- and 2-byte little-endian images (the source's `match space`
with arms `1`, `2` and a catch-all is written as an equality chain). -/
def push_i32 (tag : Nat) (u : Nat) : List Nat :=
  if required_space_for_i32 u = 1 then push_tag .INT1 tag ++ leBytes 1 u
  else if required_space_for_i32 u = 2 then push_tag .INT2 tag ++ leBytes 2 u
  else push_tag .INT4 tag ++ leBytes 4 u

/-- Bytes appended by `push_quad` (argument: unsigned 64-bit image). -/
def push_quad (tag : Nat) (u : Nat) : List Nat :=
  push_tag .QUAD tag ++ leBytes 8 u

/-- Bytes appended by `push_len`: BLK1 for `len <= u8::MAX`, BLK2 for
`len <= u16::MAX`, else BLK4 (the code asserts `len <= u32::MAX`). -/
def push_len (tag : Nat) (len : Nat) : List Nat :=
  if len ≤ 255 then push_tag .BLK1 tag ++ [len % 256]
  else if len ≤ 65535 then push_tag .BLK2 tag ++ leBytes 2 len
  else push_tag .BLK4 tag ++ leBytes 4 len

/-- Bytes appended by `push_repeated_len` (the code asserts
`len < u32::MAX`). -/
def push_repeated_len (tag : Nat) (len : Nat) : List Nat :=
  push_tag .REPEAT tag ++ leBytes 4 len

/-- Bytes appended by `push_bytes`: a length frame of `len + 1`, the
payload, then a trailing zero byte. -/
def push_bytes (tag : Nat) (bytes : List Nat) : List Nat :=
  push_len tag (bytes.length + 1) ++ bytes ++ [0]

/-- Bytes written by `set_len32` into a reserved slot: a BLK4 header and
the 4-byte little-endian length. -/
def set_len32 (tag : Nat) (len : Nat) : List Nat :=
  set_tag .BLK4 tag ++ leBytes 4 len

/-! ## Binary reader (`serde-iop/src/de/read.rs`) -/

/-- Header value, from `struct Header`. -/
structure Header where
  wire : Wire
  tag : Nat
deriving DecidableEq, Repr

/-- Reader state, from `struct BinReader`: the remaining input slice, the
total number of bytes consumed, and the one-header lookahead. -/
structure RState where
  slice : List Nat
  totalRead : Nat
  currentHdr : Option Header
deriving DecidableEq, Repr

/-- Result of a fallible reader method: the outcome together with the
state left behind (mirroring `&mut self`: mutations made before an error
are kept). -/
def RRes (α : Type) : Type := Except Error α × RState

/-- Extraction of `len` bytes from the front of the input, from
`get_slice`: fails with `InputTooShort` (without consuming) when fewer
than `len` bytes remain. -/
def get_slice (len : Nat) (s : RState) : RRes (List Nat) :=
  if s.slice.length < len then (.error .InputTooShort, s)
  else (.ok (s.slice.take len), ⟨s.slice.drop len, s.totalRead + len, s.currentHdr⟩)

/-- Unsigned read of `width` little-endian bytes (the
`read_integer_method!` readers composed with the unsigned reinterpreting
casts used at their call sites). -/
def read_uint (width : Nat) (s : RState) : RRes Nat :=
  match get_slice width s with
  | (.ok l, s') => (.ok (fromLE l), s')
  | (.error e, s') => (.error e, s')

/-- Signed read of `width` little-endian bytes (`read_i8` .. `read_i64`),
producing the two's-complement value. -/
def read_int (width : Nat) (s : RState) : RRes Int :=
  match get_slice width s with
  | (.ok l, s') => (.ok (toSigned (8 * width) (fromLE l)), s')
  | (.error e, s') => (.error e, s')

/-- Header read, from `read_hdr`: one byte giving the wire class and
`t5 = byte & 0x1F`, then 0, 1 or 2 extra little-endian tag bytes
(`l.headD 0` is `slice[0]` of the 1-byte slice just read). -/
def read_hdr (s : RState) : RRes Header :=
  match get_slice 1 s with
  | (.error e, s') => (.error e, s')
  | (.ok l, s1) =>
    if Nat.land (l.headD 0) 31 < 30 then
      (.ok ⟨Wire.ofByte (l.headD 0), Nat.land (l.headD 0) 31⟩, s1)
    else if Nat.land (l.headD 0) 31 = 30 then
      match read_uint 1 s1 with
      | (.ok t, s2) => (.ok ⟨Wire.ofByte (l.headD 0), t⟩, s2)
      | (.error e, s2) => (.error e, s2)
    else
      match read_uint 2 s1 with
      | (.ok t, s2) => (.ok ⟨Wire.ofByte (l.headD 0), t⟩, s2)
      | (.error e, s2) => (.error e, s2)

/-- Tag peek, from `get_next_tag_value`: returns the lookahead header's
tag if one is pending, else reads a header and stores it in the
lookahead. -/
def get_next_tag_value (s : RState) : RRes Nat :=
  match s.currentHdr with
  | some hdr => (.ok hdr.tag, s)
  | none =>
    match read_hdr s with
    | (.ok hdr, s') => (.ok hdr.tag, ⟨s'.slice, s'.totalRead, some hdr⟩)
    | (.error e, s') => (.error e, s')

/-- Block length read, from `read_len`: BLK1/BLK2/BLK4/QUAD lengths are
read unsigned (`as u8 as usize` etc. on the signed readers is exactly
the unsigned image); all other wire classes are `InvalidEncoding`. -/
def read_len (wire : Wire) (s : RState) : RRes Nat :=
  match wire with
  | .BLK1 => read_uint 1 s
  | .BLK2 => read_uint 2 s
  | .BLK4 => read_uint 4 s
  | .QUAD => read_uint 8 s
  | _ => (.error .InvalidEncoding, s)

/-- Repeat count read, from `read_repeated_len`: a 4-byte signed read
cast `as usize` (64-bit sign extension reinterpreted unsigned). -/
def read_repeated_len (wire : Wire) (s : RState) : RRes Nat :=
  match wire with
  | .REPEAT =>
    match read_int 4 s with
    | (.ok v, s') => (.ok ((v % 2 ^ 64).toNat), s')
    | (.error e, s') => (.error e, s')
  | _ => (.error .InvalidEncoding, s)

/-- Byte-string read, from `read_bytes`: reads the declared block length,
rejects length zero, consumes `len - 1` payload bytes and requires the
following byte to be zero. -/
def read_bytes (wire : Wire) (s : RState) : RRes (List Nat) :=
  match read_len wire s with
  | (.error e, s1) => (.error e, s1)
  | (.ok len, s1) =>
    if len < 1 then (.error .InvalidEncoding, s1)
    else
      match get_slice (len - 1) s1 with
      | (.error e, s2) => (.error e, s2)
      | (.ok payload, s2) =>
        match get_slice 1 s2 with
        | (.error e, s3) => (.error e, s3)
        | (.ok z, s3) =>
          if z.headD 0 ≠ 0 then (.error .InvalidEncoding, s3)
          else (.ok payload, s3)

/-! Consumption lemmas used for the termination of the skip loop. -/

theorem get_slice_ok_length {len : Nat} {s s' : RState} {l : List Nat}
    (h : get_slice len s = (.ok l, s')) :
    s'.slice.length + len = s.slice.length := by
  unfold get_slice at h
  split at h
  · exact Except.noConfusion (congrArg Prod.fst h)
  · next hge =>
    injection h with h1 h2
    subst h2
    simp
    omega

theorem read_uint_ok_length {w : Nat} {s s' : RState} {v : Nat}
    (h : read_uint w s = (.ok v, s')) :
    s'.slice.length + w = s.slice.length := by
  unfold read_uint at h
  split at h
  · next heq =>
    injection h with h1 h2
    subst h2
    exact get_slice_ok_length heq
  · exact Except.noConfusion (congrArg Prod.fst h)

theorem read_hdr_ok_length {s s' : RState} {hdr : Header}
    (h : read_hdr s = (.ok hdr, s')) :
    s'.slice.length < s.slice.length := by
  unfold read_hdr at h
  split at h
  · exact Except.noConfusion (congrArg Prod.fst h)
  · next l s1 heq =>
    have h1 : s1.slice.length + 1 = s.slice.length := get_slice_ok_length heq
    split at h
    · injection h with h0 h2; subst h2; omega
    · split at h
      · split at h
        · next heq2 =>
          injection h with h0 h2
          subst h2
          have := read_uint_ok_length heq2
          omega
        · exact Except.noConfusion (congrArg Prod.fst h)
      · split at h
        · next heq2 =>
          injection h with h0 h2
          subst h2
          have := read_uint_ok_length heq2
          omega
        · exact Except.noConfusion (congrArg Prod.fst h)

theorem read_len_ok_length {w : Wire} {s s' : RState} {v : Nat}
    (h : read_len w s = (.ok v, s')) :
    s'.slice.length < s.slice.length := by
  cases w <;> unfold read_len at h
  case BLK1 => have h9 := read_uint_ok_length h; omega
  case BLK2 => have h9 := read_uint_ok_length h; omega
  case BLK4 => have h9 := read_uint_ok_length h; omega
  case QUAD => have h9 := read_uint_ok_length h; omega
  all_goals exact Except.noConfusion (congrArg Prod.fst h)

/-- Helper fact: `read_len` applied to the REPEAT wire class always fails
with `InvalidEncoding` (it only accepts BLK1/BLK2/BLK4/QUAD), so the
skip loop in the REPEAT arm of `skip_data` is unreachable. -/
theorem read_len_repeat (s : RState) :
    read_len .REPEAT s = (.error .InvalidEncoding, s) := rfl

/-- Payload skip, from `skip_data`: fixed-width wires drop 1/2/4/8 bytes,
BLK wires read the declared length and drop it.  In the REPEAT arm the
source first calls `read_len(wire)` (not `read_repeated_len`), which
rejects REPEAT with `InvalidEncoding`, so the sub-item loop that follows
it in the source can never run. -/
def skip_data (wire : Wire) (s : RState) : RRes Unit :=
  match wire with
  | .QUAD =>
    match get_slice 8 s with
    | (.ok _, s') => (.ok (), s')
    | (.error e, s') => (.error e, s')
  | .INT1 =>
    match get_slice 1 s with
    | (.ok _, s') => (.ok (), s')
    | (.error e, s') => (.error e, s')
  | .INT2 =>
    match get_slice 2 s with
    | (.ok _, s') => (.ok (), s')
    | (.error e, s') => (.error e, s')
  | .INT4 =>
    match get_slice 4 s with
    | (.ok _, s') => (.ok (), s')
    | (.error e, s') => (.error e, s')
  | .BLK1 | .BLK2 | .BLK4 =>
    match read_len wire s with
    | (.error e, s1) => (.error e, s1)
    | (.ok len, s1) =>
      match get_slice len s1 with
      | (.ok _, s2) => (.ok (), s2)
      | (.error e, s2) => (.error e, s2)
  | .REPEAT =>
    match h : read_len .REPEAT s with
    | (.error e, s1) => (.error e, s1)
    | (.ok _, _) =>
      False.elim
        (Except.noConfusion (congrArg Prod.fst ((read_len_repeat s).symm.trans h)))

theorem skip_data_ok_length {w : Wire} {s s' : RState} {u : Unit}
    (h : skip_data w s = (.ok u, s')) :
    s'.slice.length < s.slice.length := by
  unfold skip_data at h
  split at h
  case _ | _ | _ | _ =>
    -- the four fixed-width arms
    split at h
    · next heq =>
      injection h with h1 h2
      subst h2
      have := get_slice_ok_length heq
      omega
    · exact Except.noConfusion (congrArg Prod.fst h)
  case _ | _ | _ =>
    -- the BLK1/BLK2/BLK4 arms
    split at h
    · exact Except.noConfusion (congrArg Prod.fst h)
    · next len s1 hlen =>
      have hl := read_len_ok_length hlen
      split at h
      · next heq =>
        injection h with h1 h2
        subst h2
        have := get_slice_ok_length heq
        omega
      · exact Except.noConfusion (congrArg Prod.fst h)
  case _ =>
    -- the REPEAT arm
    split at h
    · exact Except.noConfusion (congrArg Prod.fst h)
    · next heq =>
      exact absurd ((read_len_repeat s).symm.trans heq)
        (fun hh => Except.noConfusion (congrArg Prod.fst hh))

/-- Forward seek loop, from the `while hdr.tag < target_tag` loop of
`skip_upto_tag`: while the pending header's tag is below the target, skip
its payload and read the next header. -/
def skip_upto_loop (hdr : Header) (s : RState) (target : Nat) : RRes Header :=
  if hdr.tag < target then
    match h1 : skip_data hdr.wire s with
    | (.error e, s1) => (.error e, s1)
    | (.ok _, s1) =>
      match h2 : read_hdr s1 with
      | (.error e, s2) => (.error e, s2)
      | (.ok hdr2, s2) => skip_upto_loop hdr2 s2 target
  else (.ok hdr, s)
termination_by s.slice.length
decreasing_by
  exact Nat.lt_trans (read_hdr_ok_length h2) (skip_data_ok_length h1)

/-- Forward seek, from `skip_upto_tag`: takes the pending lookahead
header (or reads one), then runs the seek loop. -/
def skip_upto_tag (target : Nat) (s : RState) : RRes Header :=
  match s.currentHdr with
  | some hdr => skip_upto_loop hdr ⟨s.slice, s.totalRead, none⟩ target
  | none =>
    match read_hdr s with
    | (.error e, s') => (.error e, s')
    | (.ok hdr, s') => skip_upto_loop hdr s' target

/-- Optional-field lookup, from `get_optional_tag`: on a successful seek
the header is stored back into the lookahead and a tag above the target
yields `absent`; an `InputTooShort` failure of the seek is converted to
`absent`; other errors propagate. -/
def get_optional_tag (target : Nat) (s : RState) : RRes (Option Wire) :=
  match skip_upto_tag target s with
  | (.ok hdr, s') =>
    let s2 : RState := ⟨s'.slice, s'.totalRead, some hdr⟩
    if hdr.tag > target then (.ok none, s2) else (.ok (some hdr.wire), s2)
  | (.error .InputTooShort, s') => (.ok none, s')
  | (.error e, s') => (.error e, s')

/-- Required-field lookup, from `get_tag`: a tag above the target is
`InvalidEncoding`, all errors propagate. -/
def get_tag (target : Nat) (s : RState) : RRes Wire :=
  match skip_upto_tag target s with
  | (.error e, s') => (.error e, s')
  | (.ok hdr, s') =>
    if hdr.tag > target then (.error .InvalidEncoding, s')
    else (.ok hdr.wire, s')

/-! ## Helper lemmas: bytes, headers, slices -/

theorem Wire.toByte_eq (w : Wire) : w.toByte = 32 * w.idx := by
  cases w <;> rfl

theorem land31_lor (w : Wire) (a : Nat) (ha : a < 32) :
    Nat.land (Nat.lor w.toByte a) 31 = a := by
  revert a ha
  cases w <;> decide

theorem ofByte_lor (w : Wire) (a : Nat) (ha : a < 32) :
    Wire.ofByte (Nat.lor w.toByte a) = w := by
  revert a ha
  cases w <;> decide

theorem leBytes_length (w v : Nat) : (leBytes w v).length = w := by
  induction w generalizing v with
  | zero => rfl
  | succ n ih => simp [leBytes, ih]

theorem fromLE_leBytes (w v : Nat) (hv : v < 2 ^ (8 * w)) :
    fromLE (leBytes w v) = v := by
  induction w generalizing v with
  | zero =>
    simp [leBytes, fromLE]
    omega
  | succ n ih =>
    have hlt : v / 256 < 2 ^ (8 * n) := by
      have h2 : 2 ^ (8 * (n + 1)) = 2 ^ (8 * n) * 256 := by
        rw [show 8 * (n + 1) = 8 * n + 8 by ring, pow_add]
        norm_num
      rw [Nat.div_lt_iff_lt_mul (by norm_num : 0 < 256)]
      omega
    simp [leBytes, fromLE, ih _ hlt]
    omega

/-- Behaviour of `get_slice` when exactly `xs` is to be extracted from the
front of the input. -/
theorem get_slice_split {xs rest : List Nat} {s : RState} {len : Nat}
    (hs : s.slice = xs ++ rest) (hlen : xs.length = len) :
    get_slice len s = (.ok xs, ⟨rest, s.totalRead + len, s.currentHdr⟩) := by
  subst hlen
  unfold get_slice
  rw [hs]
  rw [if_neg (by simp)]
  simp

/-- Round-trip of the header codec: reading a header from the bytes
written by `set_tag`/`push_tag` recovers the wire class and the tag and
consumes exactly `tag_len tag + 1` bytes. -/
theorem read_hdr_push_tag (w : Wire) (t : Nat) (ht : t < 65536)
    (rest : List Nat) (k : Nat) (c : Option Header) :
    read_hdr ⟨push_tag w t ++ rest, k, c⟩ =
      (.ok ⟨w, t⟩, ⟨rest, k + (tag_len t + 1), c⟩) := by
  unfold push_tag set_tag tag_len
  by_cases h29 : t ≤ 29
  · rw [if_pos h29, if_pos h29]
    unfold read_hdr
    rw [show get_slice 1 ⟨[Nat.lor w.toByte t] ++ rest, k, c⟩
          = (.ok [Nat.lor w.toByte t], ⟨rest, k + 1, c⟩) from
        @get_slice_split [Nat.lor w.toByte t] rest _ 1 rfl rfl]
    simp only [List.headD]
    rw [land31_lor w t (by omega)]
    have hlt : t < 30 := by omega
    rw [if_pos hlt]
    rw [ofByte_lor w t (by omega)]
  · by_cases h255 : t ≤ 255
    · rw [if_neg h29, if_neg h29, if_pos h255, if_pos h255]
      unfold read_hdr
      rw [show get_slice 1 ⟨[Nat.lor w.toByte 30, t % 256] ++ rest, k, c⟩
            = (.ok [Nat.lor w.toByte 30], ⟨t % 256 :: rest, k + 1, c⟩) from
          @get_slice_split [Nat.lor w.toByte 30] (t % 256 :: rest) _ 1 rfl rfl]
      simp only [List.headD]
      rw [land31_lor w 30 (by omega)]
      have h30 : ¬ (30 < 30) := by omega
      rw [if_neg h30, if_pos rfl]
      unfold read_uint
      rw [show get_slice 1 ⟨t % 256 :: rest, k + 1, c⟩
            = (.ok [t % 256], ⟨rest, k + 1 + 1, c⟩) from
          @get_slice_split [t % 256] rest _ 1 rfl rfl]
      simp only [fromLE]
      rw [ofByte_lor w 30 (by omega)]
      have ht2 : t % 256 = t := Nat.mod_eq_of_lt (by omega)
      simp [ht2]
    · rw [if_neg h29, if_neg h29, if_neg h255, if_neg h255]
      unfold read_hdr
      rw [show get_slice 1 ⟨(Nat.lor w.toByte 31 :: leBytes 2 t) ++ rest, k, c⟩
            = (.ok [Nat.lor w.toByte 31], ⟨leBytes 2 t ++ rest, k + 1, c⟩) from
          @get_slice_split [Nat.lor w.toByte 31] (leBytes 2 t ++ rest) _ 1 rfl rfl]
      simp only [List.headD]
      rw [land31_lor w 31 (by omega)]
      have h31 : ¬ (31 < 30) := by omega
      have h31b : ¬ (31 = 30) := by omega
      rw [if_neg h31, if_neg h31b]
      unfold read_uint
      rw [show get_slice 2 ⟨leBytes 2 t ++ rest, k + 1, c⟩
            = (.ok (leBytes 2 t), ⟨rest, k + 1 + 2, c⟩) from
          @get_slice_split (leBytes 2 t) rest _ 2 rfl (leBytes_length 2 t)]
      dsimp only
      rw [fromLE_leBytes 2 t (by norm_num; omega)]
      rw [ofByte_lor w 31 (by omega)]

/-- Invariant of the seek loop: a successfully returned header never has
a tag below the target. -/
theorem skip_upto_loop_ge {hdr : Header} {s : RState} {target : Nat}
    {h : Header} {s' : RState}
    (heq : skip_upto_loop hdr s target = (.ok h, s')) : target ≤ h.tag := by
  induction hdr, s, target using skip_upto_loop.induct with
  | case1 hdr s target hlt e s1 h1 =>
    rw [skip_upto_loop, if_pos hlt] at heq
    rw [h1] at heq
    dsimp only at heq
    exact Except.noConfusion (congrArg Prod.fst heq)
  | case2 hdr s target hlt u s1 h1 e s2 h2 =>
    rw [skip_upto_loop, if_pos hlt] at heq
    rw [h1] at heq
    dsimp only at heq
    rw [h2] at heq
    dsimp only at heq
    exact Except.noConfusion (congrArg Prod.fst heq)
  | case3 hdr s target hlt u s1 h1 hdr2 s2 h2 ih =>
    rw [skip_upto_loop, if_pos hlt] at heq
    rw [h1] at heq
    dsimp only at heq
    rw [h2] at heq
    dsimp only at heq
    exact ih heq
  | case4 hdr s target hlt =>
    rw [skip_upto_loop, if_neg hlt] at heq
    injection heq with e1 e2
    injection e1 with e1
    subst e1
    omega

/-- Invariant of `skip_upto_tag`: a successfully returned header never
has a tag below the target. -/
theorem skip_upto_tag_ge {s : RState} {target : Nat} {h : Header} {s' : RState}
    (heq : skip_upto_tag target s = (.ok h, s')) : target ≤ h.tag := by
  unfold skip_upto_tag at heq
  split at heq
  · exact skip_upto_loop_ge heq
  · split at heq
    · exact Except.noConfusion (congrArg Prod.fst heq)
    · exact skip_upto_loop_ge heq

/-- Characterisation of `get_optional_tag` in terms of the forward seek:
since the seek never stops below the target, the source's `tag > target`
test is equivalent to `tag ≠ target`. -/
theorem get_optional_tag_eq (target : Nat) (s : RState) :
    get_optional_tag target s =
      match skip_upto_tag target s with
      | (.ok hdr, s1) =>
        (.ok (if hdr.tag = target then some hdr.wire else none),
          ⟨s1.slice, s1.totalRead, some hdr⟩)
      | (.error .InputTooShort, s1) => (.ok none, s1)
      | (.error e, s1) => (.error e, s1) := by
  unfold get_optional_tag
  cases hres : skip_upto_tag target s with
  | mk r s1 =>
    cases r with
    | ok hdr =>
      dsimp only
      have hge := skip_upto_tag_ge hres
      by_cases htag : hdr.tag = target
      · rw [if_neg (by omega : ¬ hdr.tag > target), if_pos htag]
      · rw [if_pos (by omega : hdr.tag > target), if_neg htag]
    | error e => cases e <;> rfl

/-! ## Serializer (`serde-iop/src/ser/mod.rs`) -/

/-- Serializer state, from `struct Serializer`: the output buffer and the
current tag context. -/
structure SerState where
  output : List Nat
  currentTag : Option Nat
deriving DecidableEq, Repr

/-- Field-level serializer for `i8`, from `serialize_i8`: requires a
current tag and appends `push_byte(tag, v as u8)`. -/
def serialize_i8 (v : Int) (st : SerState) : Except Error SerState :=
  match st.currentTag with
  | none => .error .MissingTag
  | some tag => .ok ⟨st.output ++ push_byte tag (v % 256).toNat, st.currentTag⟩

/-- Field-level serializer for `i32`, from `serialize_i32`: zero is
emitted as `push_byte(tag, 0)`, anything else through `push_i32` (the
argument of `push_i32` is the unsigned 32-bit image). -/
def serialize_i32 (v : Int) (st : SerState) : Except Error SerState :=
  match st.currentTag with
  | none => .error .MissingTag
  | some tag =>
    if v = 0 then .ok ⟨st.output ++ push_byte tag 0, st.currentTag⟩
    else .ok ⟨st.output ++ push_i32 tag (v % 4294967296).toNat, st.currentTag⟩

/-- Bytes emitted for an `i64` under a given tag, from `serialize_i64`:
the source tests only `v <= i32::MAX as i64` and then truncates with
`v as i32` (unsigned 32-bit image of the low 32 bits); otherwise it emits
a QUAD of the unsigned 64-bit image. -/
def serialize_i64_bytes (tag : Nat) (v : Int) : List Nat :=
  if v ≤ 2147483647 then push_i32 tag (v % 4294967296).toNat
  else push_quad tag (v % 18446744073709551616).toNat

/-- Field-level serializer for `i64`, from `serialize_i64`. -/
def serialize_i64 (v : Int) (st : SerState) : Except Error SerState :=
  match st.currentTag with
  | none => .error .MissingTag
  | some tag => .ok ⟨st.output ++ serialize_i64_bytes tag v, st.currentTag⟩

/-- Bytes emitted for a `u64` under a given tag, from `serialize_u64`:
the value is reinterpreted as `i64` (`v as i64`) and handed to
`serialize_i64`. -/
def serialize_u64_bytes (tag : Nat) (u : Nat) : List Nat :=
  serialize_i64_bytes tag (toSigned 64 (u % 18446744073709551616))

/-- Field-level serializer for `()`, from `serialize_unit`: emits
nothing. -/
def serialize_unit (st : SerState) : Except Error SerState := .ok st

/-- Struct field loop, from `StructSerializer::serialize_field`: each
field is serialized after `current_tag` is replaced with the struct
serializer's running counter, which then increments.  `t` is the counter
value for the first field of `fs`. -/
def serialize_fields (t : Nat) (fs : List (SerState → Except Error SerState))
    (st : SerState) : Except Error SerState :=
  match fs with
  | [] => .ok st
  | f :: rest =>
    match f ⟨st.output, some t⟩ with
    | .error e => .error e
    | .ok st' => serialize_fields (t + 1) rest st'

/-- Top-level entry, from `to_bytes` and `serialize_struct` for a struct
at the top level: the serializer starts with an empty buffer and no
current tag, so no length prefix is reserved (`struct_pos == 0`), the
field counter starts at 1 and `end` patches nothing. -/
def to_bytes_struct (fs : List (SerState → Except Error SerState)) :
    Except Error (List Nat) :=
  match serialize_fields 1 fs ⟨[], none⟩ with
  | .error e => .error e
  | .ok st => .ok st.output

/-- Union arm serializer, from `serialize_newtype_variant`: reserves
`tag_len tag + 1 + 4` bytes, serializes the payload with
`current_tag = variant_index as u16`, restores the tag and patches the
reserved slot with `set_len32(tag, body length)`. -/
def serialize_newtype_variant (variant_index : Nat)
    (pser : SerState → Except Error SerState) (st : SerState) :
    Except Error SerState :=
  match st.currentTag with
  | none => .error .MissingTag
  | some tag =>
    match pser ⟨st.output ++ List.replicate (tag_len tag + 1 + 4) 0,
                some (variant_index % 65536)⟩ with
    | .error e => .error e
    | .ok st2 =>
      .ok ⟨st2.output.take st.output.length
            ++ set_len32 tag
                (st2.output.length - st.output.length - (tag_len tag + 1 + 4))
            ++ st2.output.drop (st.output.length + (tag_len tag + 1 + 4)),
           some tag⟩

/-! ## Deserializer (`serde-iop/src/de/mod.rs`) -/

/-- Deserializer state, from `struct Deserializer`: the reader plus the
current tag context. -/
structure DState where
  r : RState
  currentTag : Option Nat
deriving DecidableEq, Repr

/-- Required-field wire lookup, from `Deserializer::get_wire`. -/
def get_wire (st : DState) : Except Error Wire × DState :=
  match st.currentTag with
  | none => (.error .MissingTag, st)
  | some t =>
    match get_tag t st.r with
    | (.ok w, r') => (.ok w, ⟨r', st.currentTag⟩)
    | (.error e, r') => (.error e, ⟨r', st.currentTag⟩)

/-- Optional-field wire lookup, from `Deserializer::get_optional_wire`. -/
def get_optional_wire (st : DState) : Except Error (Option Wire) × DState :=
  match st.currentTag with
  | none => (.error .MissingTag, st)
  | some t =>
    match get_optional_tag t st.r with
    | (.ok w, r') => (.ok w, ⟨r', st.currentTag⟩)
    | (.error e, r') => (.error e, ⟨r', st.currentTag⟩)

/-- Integer payload read, from `BinReader::visit_integer`: the payload
width is chosen by the wire class and handed to the visitor
sign-extended (`visit_i8` .. `visit_i64`). -/
def visit_integer (wire : Wire) (r : RState) : RRes Int :=
  match wire with
  | .INT1 => read_int 1 r
  | .INT2 => read_int 2 r
  | .INT4 => read_int 4 r
  | .QUAD => read_int 8 r
  | _ => (.error .InvalidEncoding, r)

/-- Field-level deserializer for `i64`, from `deserialize_i64` (the
serde `i64` visitor widens every `visit_iN` value without a range
check). -/
def deserialize_i64 (st : DState) : Except Error Int × DState :=
  match get_wire st with
  | (.error e, st') => (.error e, st')
  | (.ok w, st') =>
    match visit_integer w st'.r with
    | (.ok v, r2) => (.ok v, ⟨r2, st'.currentTag⟩)
    | (.error e, r2) => (.error e, ⟨r2, st'.currentTag⟩)

/-- Field-level deserializer for `i8`, from `deserialize_i8`: the serde
`i8` visitor accepts `visit_i8` directly and range-checks the wider
`visit_i16`/`visit_i32`/`visit_i64` values (the check also holds
trivially for the 1-byte case, so it is applied uniformly here). -/
def deserialize_i8 (st : DState) : Except Error Int × DState :=
  match get_wire st with
  | (.error e, st') => (.error e, st')
  | (.ok w, st') =>
    match visit_integer w st'.r with
    | (.ok v, r2) =>
      if -128 ≤ v ∧ v ≤ 127 then (.ok v, ⟨r2, st'.currentTag⟩)
      else (.error (.Custom "invalid value for i8"), ⟨r2, st'.currentTag⟩)
    | (.error e, r2) => (.error e, ⟨r2, st'.currentTag⟩)

/-- One struct element, from `StructDeserializer::next_element_seed`:
`nbFields` and the running tag are those of the struct deserializer at
this call; the stop test compares the reader's total consumption with
the precomputed end offset (bounded structs) or tests input exhaustion
(top-level structs). -/
def next_element (nbFields : Nat) (structEnd : Option Nat) (tag : Nat)
    (d : DState → Except Error Int × DState) (st : DState) :
    Except Error (Option Int) × DState :=
  let stop : Bool :=
    match structEnd with
    | some maxLen => decide (st.r.totalRead ≥ maxLen)
    | none => st.r.slice.isEmpty
  if stop ∧ nbFields = 0 then (.ok none, st)
  else
    match d ⟨st.r, some tag⟩ with
    | (.ok v, st') => (.ok (some v), st')
    | (.error e, st') => (.error e, st')

/-- Struct field loop, as driven by the serde-derived `visit_seq` for a
struct of `nb` required fields of one integer type: each field comes
from `next_element` with the countdown and tag increment of
`StructDeserializer`; a `None` for a scheduled field is the derive's
`invalid_length` error. -/
def decode_fields (nb : Nat) (structEnd : Option Nat) (tag : Nat)
    (d : DState → Except Error Int × DState) (st : DState) :
    Except Error (List Int) × DState :=
  match nb with
  | 0 => (.ok [], st)
  | n + 1 =>
    match next_element (n + 1) structEnd tag d st with
    | (.ok (some v), st') =>
      match decode_fields n structEnd (tag + 1) d st' with
      | (.ok vs, st'') => (.ok (v :: vs), st'')
      | (.error e, st'') => (.error e, st'')
    | (.ok none, st') => (.error (.Custom "invalid length"), st')
    | (.error e, st') => (.error e, st')

/-- Deserialization entry point, from `from_bytes`: runs the value's
deserializer on a fresh state and requires the whole input to have been
consumed (`reader.is_empty()`), else `TrailingCharacters`. -/
def from_bytes {α : Type} (d : DState → Except Error α × DState)
    (input : List Nat) : Except Error α :=
  match d ⟨⟨input, 0, none⟩, none⟩ with
  | (.ok t, st) => if st.r.slice.isEmpty then .ok t else .error .TrailingCharacters
  | (.error e, _) => .error e

/-- Union deserializer for arms carrying an `i8` payload, from
`deserialize_enum`, `UnionDeserializer::variant_seed` and
`newtype_variant_seed`: with a current tag the bounding block length is
read first; the next header's tag (peeked into the lookahead) is the
variant index, and the payload is read with the current tag set to it. -/
def deserialize_union_i8 (st : DState) : Except Error (Nat × Int) × DState :=
  match st.currentTag with
  | some _ =>
    match get_wire st with
    | (.error e, st1) => (.error e, st1)
    | (.ok w, st1) =>
      match read_len w st1.r with
      | (.error e, r2) => (.error e, ⟨r2, st1.currentTag⟩)
      | (.ok _, r2) =>
        match get_next_tag_value r2 with
        | (.error e, r3) => (.error e, ⟨r3, st1.currentTag⟩)
        | (.ok vtag, r3) =>
          match deserialize_i8 ⟨r3, some vtag⟩ with
          | (.ok v, st4) => (.ok (vtag, v), st4)
          | (.error e, st4) => (.error e, st4)
  | none =>
    match get_next_tag_value st.r with
    | (.error e, r3) => (.error e, ⟨r3, st.currentTag⟩)
    | (.ok vtag, r3) =>
      match deserialize_i8 ⟨r3, some vtag⟩ with
      | (.ok v, st4) => (.ok (vtag, v), st4)
      | (.error e, st4) => (.error e, st4)

/-- Round-trip of claim C1's shape `from_bytes::<T>(&to_bytes(&v)?)` for
a struct with a single `i64` field. -/
def roundtrip_one_i64 (v : Int) : Except Error Int :=
  match to_bytes_struct [serialize_i64 v] with
  | .error e => .error e
  | .ok bytes =>
    match from_bytes (decode_fields 1 none 1 deserialize_i64) bytes with
    | .ok vs => .ok (vs.headD 0)
    | .error e => .error e

/-! ## Evaluation helpers for streams that start with a written header -/

/-- Seeking a tag on a stream that starts with exactly that tag stops at
once. -/
theorem skip_upto_tag_exact (w : Wire) (t : Nat) (ht : t < 65536)
    (rest : List Nat) (k : Nat) :
    skip_upto_tag t ⟨push_tag w t ++ rest, k, none⟩ =
      (.ok ⟨w, t⟩, ⟨rest, k + (tag_len t + 1), none⟩) := by
  unfold skip_upto_tag
  dsimp only
  rw [read_hdr_push_tag w t ht rest k none]
  dsimp only
  rw [skip_upto_loop]
  rw [if_neg (by simp : ¬ (Header.mk w t).tag < t)]

/-- Requiring a tag on a stream that starts with exactly that tag
returns its wire class. -/
theorem get_tag_exact (w : Wire) (t : Nat) (ht : t < 65536)
    (rest : List Nat) (k : Nat) :
    get_tag t ⟨push_tag w t ++ rest, k, none⟩ =
      (.ok w, ⟨rest, k + (tag_len t + 1), none⟩) := by
  unfold get_tag
  rw [skip_upto_tag_exact w t ht rest k]
  dsimp only
  rw [if_neg (by simp : ¬ (Header.mk w t).tag > t)]

/-- Requiring a tag when the lookahead already holds a header with that
tag consumes the lookahead. -/
theorem get_tag_lookahead (w : Wire) (t : Nat) (sl : List Nat) (k : Nat) :
    get_tag t ⟨sl, k, some ⟨w, t⟩⟩ = (.ok w, ⟨sl, k, none⟩) := by
  unfold get_tag skip_upto_tag
  dsimp only
  rw [skip_upto_loop]
  rw [if_neg (by simp : ¬ (Header.mk w t).tag < t)]
  dsimp only
  rw [if_neg (by simp : ¬ (Header.mk w t).tag > t)]

/-- Peeking the next tag on a stream that starts with a written header
returns that header's tag and stores the header in the lookahead. -/
theorem get_next_tag_value_push (w : Wire) (t : Nat) (ht : t < 65536)
    (rest : List Nat) (k : Nat) :
    get_next_tag_value ⟨push_tag w t ++ rest, k, none⟩ =
      (.ok t, ⟨rest, k + (tag_len t + 1), some ⟨w, t⟩⟩) := by
  unfold get_next_tag_value
  dsimp only
  rw [read_hdr_push_tag w t ht rest k none]

/-- Reading back a little-endian length image recovers the value. -/
theorem read_uint_leBytes (wdt : Nat) (n : Nat) (hn : n < 2 ^ (8 * wdt))
    (rest : List Nat) (k : Nat) (c : Option Header) :
    read_uint wdt ⟨leBytes wdt n ++ rest, k, c⟩ = (.ok n, ⟨rest, k + wdt, c⟩) := by
  unfold read_uint
  rw [show get_slice wdt ⟨leBytes wdt n ++ rest, k, c⟩
        = (.ok (leBytes wdt n), ⟨rest, k + wdt, c⟩) from
      @get_slice_split (leBytes wdt n) rest _ wdt rfl (leBytes_length wdt n)]
  dsimp only
  rw [fromLE_leBytes wdt n hn]

/-- Unfolding of the single-`i64`-field round-trip at a symbolic value:
the struct serializer emits the field under tag 1 and succeeds, so the
round-trip reduces to decoding the emitted bytes. -/
theorem roundtrip_one_i64_eq (v : Int) :
    roundtrip_one_i64 v =
      match from_bytes (decode_fields 1 none 1 deserialize_i64)
          (serialize_i64_bytes 1 v) with
      | .ok vs => .ok (vs.headD 0)
      | .error e => .error e := rfl

/-- Unfolding step of the byte-count loop. -/
theorem byteCount_step (v : Nat) (h : v ≠ 0) :
    byteCount v = byteCount (v / 256) + 1 := by
  rw [byteCount, if_neg h]

/-- Base case of the byte-count loop. -/
theorem byteCount_zero : byteCount 0 = 0 := by
  rw [byteCount, if_pos rfl]

/-- Byte count of the zigzag image of `i32::MAX`. -/
theorem required_space_i32_max : required_space_for_i32 2147483647 = 4 := by
  unfold required_space_for_i32
  rw [show Nat.lor (zigzag32 2147483647) 1 = 4294967295 by decide]
  rw [byteCount_step 4294967295 (by decide),
    show (4294967295 : Nat) / 256 = 16777215 by decide]
  rw [byteCount_step 16777215 (by decide),
    show (16777215 : Nat) / 256 = 65535 by decide]
  rw [byteCount_step 65535 (by decide),
    show (65535 : Nat) / 256 = 255 by decide]
  rw [byteCount_step 255 (by decide),
    show (255 : Nat) / 256 = 0 by decide]
  rw [byteCount_zero]

/-- Byte count of the zigzag image of zero. -/
theorem required_space_zero : required_space_for_i32 0 = 1 := by
  unfold required_space_for_i32
  rw [show Nat.lor (zigzag32 0) 1 = 1 by decide]
  rw [byteCount_step 1 (by decide), show (1 : Nat) / 256 = 0 by decide]
  rw [byteCount_zero]

/-- Sign rules for one-byte two's-complement values. -/
theorem toSigned8_range (b : Nat) (hb : b < 256) :
    -128 ≤ toSigned 8 b ∧ toSigned 8 b ≤ 127 := by
  unfold toSigned
  norm_num
  split <;> omega

/-- Round-trip of the one-byte two's-complement image. -/
theorem toSigned8_emod (v : Int) (h1 : -128 ≤ v) (h2 : v ≤ 127) :
    toSigned 8 (v % 256).toNat = v := by
  unfold toSigned
  norm_num
  split <;> omega

/-- Reading an `i64` field from a stream that carries an INT4 value at
exactly the current tag. -/
theorem deserialize_i64_int4 (t : Nat) (ht : t < 65536) (u : Nat)
    (hu : u < 4294967296) (k : Nat) :
    deserialize_i64 ⟨⟨push_tag .INT4 t ++ leBytes 4 u, k, none⟩, some t⟩ =
      (.ok (toSigned 32 u), ⟨⟨[], k + (tag_len t + 1) + 4, none⟩, some t⟩) := by
  unfold deserialize_i64 get_wire
  dsimp only
  rw [get_tag_exact .INT4 t ht (leBytes 4 u) k]
  dsimp only
  unfold visit_integer read_int
  rw [show get_slice 4 ⟨leBytes 4 u, k + (tag_len t + 1), none⟩
        = (.ok (leBytes 4 u), ⟨[], k + (tag_len t + 1) + 4, none⟩) from
      @get_slice_split (leBytes 4 u) [] _ 4 (List.append_nil _).symm
        (leBytes_length 4 u)]
  dsimp only
  rw [fromLE_leBytes 4 u (by norm_num; omega)]

/-! ## Claims -/

/-- C3: header read inverts header write — for every wire class `w` and
16-bit tag `t`, writing the header with `set_tag` (first byte
`(w<<5)|t5`, plus 0, 1 or 2 extra little-endian tag bytes depending on
`t < 30`, `30 ≤ t ≤ 255`, `t ≥ 256`) and reading it back with `read_hdr`
returns exactly `(w, t)` and consumes exactly the written bytes. -/
theorem C3_header_roundtrip (w : Wire) (t : Nat) (ht : t < 65536)
    (rest : List Nat) (k : Nat) (c : Option Header) :
    read_hdr ⟨set_tag w t ++ rest, k, c⟩ =
      (.ok ⟨w, t⟩, ⟨rest, k + (tag_len t + 1), c⟩) :=
  read_hdr_push_tag w t ht rest k c

/-- Witness for C3 at a concrete wire class and tag from the two-extra-
byte range. -/
theorem C3_header_roundtrip_witness :
    read_hdr ⟨set_tag .INT2 300 ++ [7], 5, none⟩ =
      (.ok ⟨.INT2, 300⟩, ⟨[7], 5 + (tag_len 300 + 1), none⟩) :=
  C3_header_roundtrip .INT2 300 (by decide) [7] 5 none

/-- C4: `push_len tag n` picks BLK1 with a 1-byte length for `n ≤ 255`,
BLK2 with a 2-byte little-endian length for `256 ≤ n ≤ 65535` and BLK4
with a 4-byte little-endian length otherwise (under the code's
`n ≤ u32::MAX` precondition); in particular `n = 255` is BLK1 and
`n = 65535` is BLK2.  Reading the header and the length back recovers
`(wire, tag)` and `n` exactly. -/
theorem C4_push_len_thresholds (t n : Nat) (ht : t < 65536)
    (hn : n ≤ 4294967295) (rest : List Nat) (k : Nat) :
    push_len t n =
      push_tag (if n ≤ 255 then .BLK1 else if n ≤ 65535 then .BLK2 else .BLK4) t
        ++ leBytes (if n ≤ 255 then 1 else if n ≤ 65535 then 2 else 4) n
    ∧ read_hdr ⟨push_len t n ++ rest, k, none⟩ =
        (.ok ⟨if n ≤ 255 then .BLK1 else if n ≤ 65535 then .BLK2 else .BLK4, t⟩,
          ⟨leBytes (if n ≤ 255 then 1 else if n ≤ 65535 then 2 else 4) n ++ rest,
            k + (tag_len t + 1), none⟩)
    ∧ read_len (if n ≤ 255 then .BLK1 else if n ≤ 65535 then .BLK2 else .BLK4)
        ⟨leBytes (if n ≤ 255 then 1 else if n ≤ 65535 then 2 else 4) n ++ rest,
          k + (tag_len t + 1), none⟩ =
        (.ok n,
          ⟨rest, k + (tag_len t + 1)
            + (if n ≤ 255 then 1 else if n ≤ 65535 then 2 else 4), none⟩) := by
  by_cases h255 : n ≤ 255
  · simp only [if_pos h255]
    refine ⟨?_, ?_, ?_⟩
    · unfold push_len
      rw [if_pos h255]
      rfl
    · unfold push_len
      rw [if_pos h255]
      rw [show push_tag .BLK1 t ++ [n % 256] ++ rest
            = push_tag .BLK1 t ++ (leBytes 1 n ++ rest) by
          simp [leBytes, List.append_assoc]]
      exact read_hdr_push_tag .BLK1 t ht (leBytes 1 n ++ rest) k none
    · unfold read_len
      exact read_uint_leBytes 1 n (by norm_num; omega) rest (k + (tag_len t + 1)) none
  · by_cases h65535 : n ≤ 65535
    · simp only [if_neg h255, if_pos h65535]
      refine ⟨?_, ?_, ?_⟩
      · unfold push_len
        rw [if_neg h255, if_pos h65535]
      · unfold push_len
        rw [if_neg h255, if_pos h65535]
        rw [List.append_assoc]
        exact read_hdr_push_tag .BLK2 t ht (leBytes 2 n ++ rest) k none
      · unfold read_len
        exact read_uint_leBytes 2 n (by norm_num; omega) rest (k + (tag_len t + 1)) none
    · simp only [if_neg h255, if_neg h65535]
      refine ⟨?_, ?_, ?_⟩
      · unfold push_len
        rw [if_neg h255, if_neg h65535]
      · unfold push_len
        rw [if_neg h255, if_neg h65535]
        rw [List.append_assoc]
        exact read_hdr_push_tag .BLK4 t ht (leBytes 4 n ++ rest) k none
      · unfold read_len
        exact read_uint_leBytes 4 n (by norm_num; omega) rest (k + (tag_len t + 1)) none

/-- Witness for C4 at the boundary `n = 65536` (the smallest BLK4
length) with the golden-image tag 5, plus the boundary facts that
`n = 255` stays BLK1 and `n = 65535` stays BLK2. -/
theorem C4_push_len_thresholds_witness :
    push_len 5 65536 = push_tag .BLK4 5 ++ leBytes 4 65536
    ∧ push_len 5 255 = push_tag .BLK1 5 ++ leBytes 1 255
    ∧ push_len 5 65535 = push_tag .BLK2 5 ++ leBytes 2 65535 := by
  refine ⟨?_, ?_, ?_⟩
  · exact (C4_push_len_thresholds 5 65536 (by decide) (by decide) [] 0).1
  · exact (C4_push_len_thresholds 5 255 (by decide) (by decide) [] 0).1
  · exact (C4_push_len_thresholds 5 65535 (by decide) (by decide) [] 0).1

/-- C2 (code bug): `serialize_i64` does not emit a QUAD for values below
`i32::MIN` — the code tests only `v <= i32::MAX as i64` and truncates
with `v as i32`, so `v = -2147483649` (= `i32::MIN - 1`) at tag 1 is
emitted as an INT4 carrying the truncated image `2147483647`
(bytes `C1 FF FF FF 7F`), not as a QUAD with the 8-byte image of `v`;
and `serialize_u64` on `2^63` (high bit set) emits `INT1 0`
(bytes `81 00`), not a QUAD. -/
theorem C2_i64_narrowing_truncates :
    serialize_i64_bytes 1 (-2147483649)
        = push_tag .INT4 1 ++ leBytes 4 2147483647
    ∧ serialize_i64_bytes 1 (-2147483649) = [193, 255, 255, 255, 127]
    ∧ serialize_u64_bytes 1 9223372036854775808 = [129, 0] := by
  have hspace4 : required_space_for_i32 2147483647 = 4 := required_space_i32_max
  have hspace0 : required_space_for_i32 0 = 1 := required_space_zero
  have h1 : serialize_i64_bytes 1 (-2147483649)
      = push_tag .INT4 1 ++ leBytes 4 2147483647 := by
    unfold serialize_i64_bytes
    rw [if_pos (by decide : (-2147483649 : Int) ≤ 2147483647)]
    rw [show ((-2147483649 : Int) % 4294967296).toNat = 2147483647 by decide]
    unfold push_i32
    rw [hspace4]
    norm_num
  refine ⟨h1, ?_, ?_⟩
  · rw [h1]; decide
  · unfold serialize_u64_bytes
    rw [show toSigned 64 (9223372036854775808 % 18446744073709551616)
          = -9223372036854775808 by decide]
    unfold serialize_i64_bytes
    rw [if_pos (by decide : (-9223372036854775808 : Int) ≤ 2147483647)]
    rw [show ((-9223372036854775808 : Int) % 4294967296).toNat = 0 by decide]
    unfold push_i32
    rw [hspace0]
    norm_num
    decide

/-- C1 (code bug): the round-trip `from_bytes(to_bytes(v))` is broken
for `i64` values below `i32::MIN` — a single-field struct holding
`x = -2147483649` serializes (via the truncating `serialize_i64`) to an
INT4 of `2147483647`, and deserializing that buffer succeeds but yields
`2147483647`, not the original value. -/
theorem C1_roundtrip_breaks_for_i64 :
    roundtrip_one_i64 (-2147483649) = .ok 2147483647
    ∧ (-2147483649 : Int) ≠ 2147483647 := by
  have hspace4 : required_space_for_i32 2147483647 = 4 := required_space_i32_max
  have hbytes : serialize_i64_bytes 1 (-2147483649)
      = push_tag .INT4 1 ++ leBytes 4 2147483647 := by
    unfold serialize_i64_bytes
    rw [if_pos (by decide : (-2147483649 : Int) ≤ 2147483647)]
    rw [show ((-2147483649 : Int) % 4294967296).toNat = 2147483647 by decide]
    unfold push_i32
    rw [hspace4]
    norm_num
  refine ⟨?_, by decide⟩
  rw [roundtrip_one_i64_eq]
  rw [hbytes]
  unfold from_bytes decode_fields next_element
  dsimp only
  have hne : ¬ ((push_tag Wire.INT4 1 ++ leBytes 4 2147483647).isEmpty = true
      ∧ 0 + 1 = 0) := by simp
  rw [if_neg hne]
  rw [deserialize_i64_int4 1 (by decide) 2147483647 (by decide) 0]
  dsimp only [decode_fields]
  rw [show toSigned 32 2147483647 = 2147483647 by decide]
  simp

/-- C5: `get_optional_tag(expected)` returns `present(wire)` exactly
when the forward seek `skip_upto_tag` (which skips lower tags) stops at
a header whose tag equals `expected`; returns `absent` when that
header's tag exceeds `expected`; converts an `InputTooShort` failure of
the seek (end of input reached while searching) to `absent`; propagates
every other error unchanged; and consequently never surfaces
`InputTooShort` itself. -/
theorem C5_get_optional_tag_behaviour (target : Nat) (s : RState) :
    (∀ hdr s1, skip_upto_tag target s = (.ok hdr, s1) →
      get_optional_tag target s =
        (.ok (if hdr.tag = target then some hdr.wire else none),
          ⟨s1.slice, s1.totalRead, some hdr⟩))
    ∧ (∀ s1, skip_upto_tag target s = (.error .InputTooShort, s1) →
        get_optional_tag target s = (.ok none, s1))
    ∧ (∀ e s1, e ≠ .InputTooShort → skip_upto_tag target s = (.error e, s1) →
        get_optional_tag target s = (.error e, s1))
    ∧ (get_optional_tag target s).1 ≠ .error .InputTooShort := by
  refine ⟨?_, ?_, ?_, ?_⟩
  · intro hdr s1 h
    rw [get_optional_tag_eq, h]
  · intro s1 h
    rw [get_optional_tag_eq, h]
  · intro e s1 hne h
    rw [get_optional_tag_eq, h]
    cases e
    case InputTooShort => exact absurd rfl hne
    all_goals rfl
  · rw [get_optional_tag_eq]
    rcases h : skip_upto_tag target s with ⟨r, s1⟩
    cases r with
    | ok hdr => simp
    | error e => cases e <;> simp

/-- Witness for C5: on the stream `81 05` (an INT1 value at tag 1),
seeking tag 1 stops at the matching header and the field is present. -/
theorem C5_get_optional_tag_behaviour_witness :
    get_optional_tag 1 ⟨push_tag .INT1 1 ++ [5], 0, none⟩ =
      (.ok (some .INT1), ⟨[5], 1, some ⟨.INT1, 1⟩⟩) := by
  have happ := (C5_get_optional_tag_behaviour 1
      ⟨push_tag .INT1 1 ++ [5], 0, none⟩).1 ⟨.INT1, 1⟩ ⟨[5], 1, none⟩
    (skip_upto_tag_exact .INT1 1 (by decide) [5] 0)
  simpa using happ

/-- Seek trace on the input `80 00 81 01` for target tag 1: the INT1
item at tag 0 is silently skipped and the seek stops at the tag-1
header. -/
theorem skip_trace_80008101 :
    skip_upto_tag 1 ⟨[128, 0, 129, 1], 0, none⟩ =
      (.ok ⟨.INT1, 1⟩, ⟨[1], 3, none⟩) := by
  unfold skip_upto_tag
  dsimp only
  rw [show read_hdr ⟨[128, 0, 129, 1], 0, none⟩
        = (.ok ⟨.INT1, 0⟩, ⟨[0, 129, 1], 1, none⟩) from rfl]
  dsimp only
  rw [skip_upto_loop]
  rw [if_pos (by decide : (Header.mk Wire.INT1 0).tag < 1)]
  rw [show skip_data .INT1 ⟨[0, 129, 1], 1, none⟩
        = (.ok (), ⟨[129, 1], 2, none⟩) from rfl]
  dsimp only
  rw [show read_hdr ⟨[129, 1], 2, none⟩
        = (.ok ⟨.INT1, 1⟩, ⟨[1], 3, none⟩) from rfl]
  dsimp only
  rw [skip_upto_loop]
  rw [if_neg (by decide : ¬ (Header.mk Wire.INT1 1).tag < 1)]

/-- C6 counterexample: decoding `80 00 81 01` under a record schema with
required integer fields at tags 1 and 2 does not return
`InvalidEncoding` — the decoder silently skips the lower tag-0 item
instead of rejecting it. -/
theorem C6_decode_80008101_not_invalid :
    from_bytes (decode_fields 2 none 1 deserialize_i64) [128, 0, 129, 1]
      ≠ .error .InvalidEncoding := by
  have hskip1 := skip_trace_80008101
  have hskip2 : skip_upto_tag 2 ⟨[], 4, none⟩ =
      (.error .InputTooShort, ⟨[], 4, none⟩) := rfl
  simp [from_bytes, decode_fields, next_element, deserialize_i64, get_wire,
    get_tag, hskip1, hskip2, visit_integer, read_int, get_slice, toSigned,
    fromLE]

/-- C6 amended: decoding `80 00 81 01` under a record schema with
required integer fields at tags 1 and 2 returns `InputTooShort`: the
tag-0 item is skipped, the tag-1 item is consumed as field 1, and the
required field 2 then hits end of input. -/
theorem C6_decode_80008101_input_too_short :
    from_bytes (decode_fields 2 none 1 deserialize_i64) [128, 0, 129, 1]
      = .error .InputTooShort := by
  have hskip1 := skip_trace_80008101
  have hskip2 : skip_upto_tag 2 ⟨[], 4, none⟩ =
      (.error .InputTooShort, ⟨[], 4, none⟩) := rfl
  simp [from_bytes, decode_fields, next_element, deserialize_i64, get_wire,
    get_tag, hskip1, hskip2, visit_integer, read_int, get_slice, toSigned,
    fromLE]

/-- C7: `read_bytes` rejects a declared block length of zero with
`InvalidEncoding`; for a positive declared length it consumes exactly
`len - 1` payload bytes and one further byte, fails with
`InvalidEncoding` when that final byte is nonzero, and on success
returns exactly the `len - 1` payload bytes. -/
theorem C7_read_bytes_spec (w : Wire) (s s1 : RState) (len : Nat)
    (hlen : read_len w s = (.ok len, s1)) :
    (len = 0 → read_bytes w s = (.error .InvalidEncoding, s1))
    ∧ (∀ payload z rest, s1.slice = payload ++ z :: rest →
        payload.length = len - 1 → 1 ≤ len →
        read_bytes w s =
          (if z = 0 then .ok payload else .error .InvalidEncoding,
            ⟨rest, s1.totalRead + len, s1.currentHdr⟩)) := by
  constructor
  · intro h0
    subst h0
    unfold read_bytes
    rw [hlen]
    dsimp only
    rw [if_pos (by omega : (0 : Nat) < 1)]
  · intro payload z rest hs hp hge
    unfold read_bytes
    rw [hlen]
    dsimp only
    rw [if_neg (by omega : ¬ len < 1)]
    rw [show get_slice (len - 1) s1
          = (.ok payload, ⟨z :: rest, s1.totalRead + (len - 1), s1.currentHdr⟩)
        from @get_slice_split payload (z :: rest) s1 (len - 1) hs hp]
    dsimp only
    rw [show get_slice 1 ⟨z :: rest, s1.totalRead + (len - 1), s1.currentHdr⟩
          = (.ok [z], ⟨rest, s1.totalRead + (len - 1) + 1, s1.currentHdr⟩)
        from @get_slice_split [z] rest _ 1 rfl rfl]
    dsimp only
    have harith : s1.totalRead + (len - 1) + 1 = s1.totalRead + len := by omega
    rw [harith]
    by_cases hz : z = 0
    · rw [if_neg (by simp [hz] : ¬ ([z].headD 0 ≠ 0)), if_pos hz]
    · rw [if_pos (by simp [hz] : [z].headD 0 ≠ 0), if_neg hz]

/-- Witness for C7 on the golden image `03 DE AD 00` after a BLK1
header: declared length 3, payload `DE AD`, trailing zero. -/
theorem C7_read_bytes_spec_witness :
    read_bytes .BLK1 ⟨[3, 222, 173, 0], 0, none⟩ =
      (.ok [222, 173], ⟨[], 4, none⟩) := by
  have h := (C7_read_bytes_spec .BLK1 ⟨[3, 222, 173, 0], 0, none⟩
      ⟨[222, 173, 0], 1, none⟩ 3 rfl).2 [222, 173] 0 [] rfl rfl (by decide)
  simpa using h

/-- C8: `from_bytes` returns `TrailingCharacters` exactly when the
value's deserializer succeeds without consuming the whole input (given
that the value's deserializer does not itself produce
`TrailingCharacters`, which no deserializer of this codec does), and a
successful `from_bytes` means the deserializer consumed every byte. -/
theorem C8_from_bytes_trailing {α : Type} (d : DState → Except Error α × DState)
    (input : List Nat)
    (hd : (d ⟨⟨input, 0, none⟩, none⟩).1 ≠ .error .TrailingCharacters) :
    (from_bytes d input = .error .TrailingCharacters ↔
      ∃ t st, d ⟨⟨input, 0, none⟩, none⟩ = (.ok t, st) ∧ st.r.slice ≠ [])
    ∧ (∀ t, from_bytes d input = .ok t →
        ∃ st, d ⟨⟨input, 0, none⟩, none⟩ = (.ok t, st) ∧ st.r.slice = []) := by
  unfold from_bytes
  rcases h : d ⟨⟨input, 0, none⟩, none⟩ with ⟨r, st⟩
  cases r with
  | ok t0 =>
    dsimp only
    by_cases he : st.r.slice.isEmpty = true
    · rw [if_pos he]
      constructor
      · constructor
        · intro hfalse
          exact absurd hfalse (by simp)
        · rintro ⟨t, st', heq, hne⟩
          injection heq with e1 e2
          subst e2
          exact absurd (List.isEmpty_iff.mp he) hne
      · intro t ht
        injection ht with e1
        subst e1
        exact ⟨st, rfl, List.isEmpty_iff.mp he⟩
    · rw [if_neg he]
      constructor
      · constructor
        · intro _
          refine ⟨t0, st, rfl, ?_⟩
          simpa [List.isEmpty_iff] using he
        · intro _
          rfl
      · intro t ht
        exact absurd ht (by simp)
  | error e =>
    dsimp only
    rw [h] at hd
    constructor
    · constructor
      · intro heq
        injection heq with e1
        exact absurd (congrArg Except.error e1) hd
      · rintro ⟨t, st', heq, hne⟩
        exact Except.noConfusion (congrArg Prod.fst heq)
    · intro t ht
      exact absurd ht (by simp)

/-- Witness for C8: the buffer `81 01 FF` (an INT1 value at tag 1
followed by a stray byte) decodes its single field but leaves one byte,
so `from_bytes` returns `TrailingCharacters`. -/
theorem C8_from_bytes_trailing_witness :
    from_bytes (decode_fields 1 none 1 deserialize_i64) [129, 1, 255]
      = .error .TrailingCharacters := by
  have hskip : skip_upto_tag 1 ⟨[129, 1, 255], 0, none⟩ =
      (.ok ⟨.INT1, 1⟩, ⟨[1, 255], 1, none⟩) :=
    skip_upto_tag_exact .INT1 1 (by decide) [1, 255] 0
  have hd1 : decode_fields 1 none 1 deserialize_i64 ⟨⟨[129, 1, 255], 0, none⟩, none⟩
      = (.ok [1], ⟨⟨[255], 2, none⟩, some 1⟩) := by
    simp [decode_fields, next_element, deserialize_i64, get_wire, get_tag,
      hskip, visit_integer, read_int, get_slice, toSigned, fromLE]
  exact (C8_from_bytes_trailing (decode_fields 1 none 1 deserialize_i64)
      [129, 1, 255] (by rw [hd1]; simp)).1.mpr
    ⟨[1], ⟨⟨[255], 2, none⟩, some 1⟩, hd1, by simp⟩

/-- Expected wire image of a struct of `i8` fields whose first field
carries tag `t`: each field is an INT1 item under consecutive tags. -/
def struct_bytes : Nat → List Int → List Nat
  | _, [] => []
  | t, v :: rest => push_byte t (v % 256).toNat ++ struct_bytes (t + 1) rest

/-- The struct serializer hands field `i` (0-based) of the field list to
the field serializer with the current tag set to `t + i`; for `i8`
fields the output is therefore the consecutive-tag image
`struct_bytes t vs`. -/
theorem serialize_fields_i8 (vs : List Int) : ∀ (t : Nat) (st : SerState),
    ∃ c, serialize_fields t (vs.map serialize_i8) st
      = .ok ⟨st.output ++ struct_bytes t vs, c⟩ := by
  induction vs with
  | nil =>
    intro t st
    exact ⟨st.currentTag, by simp [serialize_fields, struct_bytes]⟩
  | cons v rest ih =>
    intro t st
    obtain ⟨c, hc⟩ := ih (t + 1)
      ⟨st.output ++ push_byte t (v % 256).toNat, some t⟩
    refine ⟨c, ?_⟩
    simp only [List.map_cons, serialize_fields, serialize_i8]
    rw [hc]
    simp [struct_bytes, List.append_assoc]

/-- Reading an `i8` field from a stream that carries an INT1 value at
exactly the current tag. -/
theorem deserialize_i8_push (t : Nat) (ht : t < 65536) (v : Int)
    (h1 : -128 ≤ v) (h2 : v ≤ 127) (rest : List Nat) (k : Nat) :
    deserialize_i8 ⟨⟨push_byte t (v % 256).toNat ++ rest, k, none⟩, some t⟩ =
      (.ok v, ⟨⟨rest, k + (tag_len t + 1) + 1, none⟩, some t⟩) := by
  unfold deserialize_i8 get_wire
  dsimp only
  rw [show (push_byte t (v % 256).toNat ++ rest : List Nat)
        = push_tag .INT1 t ++ ((v % 256).toNat % 256 :: rest) by
      simp [push_byte, List.append_assoc]]
  rw [get_tag_exact .INT1 t ht ((v % 256).toNat % 256 :: rest) k]
  dsimp only
  unfold visit_integer read_int
  rw [show get_slice 1 ⟨(v % 256).toNat % 256 :: rest, k + (tag_len t + 1), none⟩
        = (.ok [(v % 256).toNat % 256],
            ⟨rest, k + (tag_len t + 1) + 1, none⟩) from
      @get_slice_split [(v % 256).toNat % 256] rest _ 1 rfl rfl]
  dsimp only
  have hb : (v % 256).toNat % 256 = (v % 256).toNat :=
    Nat.mod_eq_of_lt (by omega)
  rw [hb]
  rw [show fromLE [(v % 256).toNat] = (v % 256).toNat by simp [fromLE]]
  rw [toSigned8_emod v h1 h2]
  rw [if_pos ⟨h1, h2⟩]

/-- The struct decoder consumes the consecutive-tag image exactly,
returning the field values in order. -/
theorem decode_fields_i8 (vs : List Int) : ∀ (t k : Nat) (c0 : Option Nat),
    (∀ v ∈ vs, -128 ≤ v ∧ v ≤ 127) → t + vs.length ≤ 65536 →
    ∃ st', decode_fields vs.length none t deserialize_i8
        ⟨⟨struct_bytes t vs, k, none⟩, c0⟩ = (.ok vs, st')
      ∧ st'.r.slice = [] := by
  induction vs with
  | nil =>
    intro t k c0 hrange hbound
    exact ⟨⟨⟨struct_bytes t [], k, none⟩, c0⟩, by simp [decode_fields], by
      simp [struct_bytes]⟩
  | cons v rest ih =>
    intro t k c0 hrange hbound
    have hv := hrange v (by simp)
    have hlen1 : (v :: rest).length = rest.length + 1 := rfl
    obtain ⟨st', hst', hsl⟩ := ih (t + 1) (k + (tag_len t + 1) + 1) (some t)
      (fun x hx => hrange x (by simp [hx])) (by omega)
    refine ⟨st', ?_, hsl⟩
    show decode_fields (rest.length + 1) none t deserialize_i8
        ⟨⟨struct_bytes t (v :: rest), k, none⟩, c0⟩ = (.ok (v :: rest), st')
    unfold decode_fields next_element
    dsimp only
    rw [if_neg (by simp : ¬ (((match (none : Option Nat) with
      | some maxLen =>
        decide ((⟨⟨struct_bytes t (v :: rest), k, none⟩, c0⟩ :
          DState).r.totalRead ≥ maxLen)
      | none => (⟨⟨struct_bytes t (v :: rest), k, none⟩, c0⟩ :
          DState).r.slice.isEmpty) = true) ∧ rest.length + 1 = 0))]
    rw [show struct_bytes t (v :: rest)
          = push_byte t (v % 256).toNat ++ struct_bytes (t + 1) rest from rfl]
    rw [deserialize_i8_push t (by omega) v hv.1 hv.2
      (struct_bytes (t + 1) rest) k]
    dsimp only
    rw [hst']

/-- C9: struct field tags are the consecutive sequence 1, 2, 3, … in
declaration order — for a struct of `i8` fields the serializer emits the
`i`-th declared field under tag `i` (the image `struct_bytes 1 vs`), the
struct decoder expects exactly that sequence and recovers the values,
and a placeholder field serializing to nothing (`serialize_unit`) still
consumes a tag number, producing a gap: a struct
`(i8, unit, i8)` is emitted under tags 1 and 3. -/
theorem C9_struct_tags_consecutive (vs : List Int)
    (hrange : ∀ v ∈ vs, -128 ≤ v ∧ v ≤ 127) (hlen : 1 + vs.length ≤ 65536) :
    to_bytes_struct (vs.map serialize_i8) = .ok (struct_bytes 1 vs)
    ∧ from_bytes (decode_fields vs.length none 1 deserialize_i8)
        (struct_bytes 1 vs) = .ok vs
    ∧ ∀ v1 v2 : Int,
        to_bytes_struct [serialize_i8 v1, serialize_unit, serialize_i8 v2]
          = .ok (push_byte 1 (v1 % 256).toNat ++ push_byte 3 (v2 % 256).toNat) := by
  refine ⟨?_, ?_, ?_⟩
  · obtain ⟨c, hc⟩ := serialize_fields_i8 vs 1 ⟨[], none⟩
    unfold to_bytes_struct
    rw [hc]
    rfl
  · obtain ⟨st', hst', hsl⟩ := decode_fields_i8 vs 1 0 none hrange hlen
    unfold from_bytes
    rw [hst']
    dsimp only
    rw [if_pos (List.isEmpty_iff.mpr hsl)]
  · intro v1 v2
    simp [to_bytes_struct, serialize_fields, serialize_i8, serialize_unit]

/-- Witness for C9 on the two-field struct `(5, -3)`. -/
theorem C9_struct_tags_consecutive_witness :
    to_bytes_struct (([5, -3] : List Int).map serialize_i8)
        = .ok (struct_bytes 1 [5, -3])
    ∧ from_bytes (decode_fields 2 none 1 deserialize_i8)
        (struct_bytes 1 [5, -3]) = .ok [5, -3] := by
  have h := C9_struct_tags_consecutive [5, -3] (by decide) (by decide)
  exact ⟨h.1, h.2.1⟩

/-- Number of bytes a written header occupies. -/
theorem push_tag_length (w : Wire) (t : Nat) :
    (push_tag w t).length = tag_len t + 1 := by
  unfold push_tag set_tag tag_len
  by_cases h29 : t ≤ 29
  · rw [if_pos h29, if_pos h29]; rfl
  · by_cases h255 : t ≤ 255
    · rw [if_neg h29, if_neg h29, if_pos h255, if_pos h255]; rfl
    · rw [if_neg h29, if_neg h29, if_neg h255, if_neg h255]
      simp [leBytes_length]

/-- Tags occupy at most two extra header bytes. -/
theorem tag_len_le (t : Nat) : tag_len t ≤ 2 := by
  unfold tag_len
  split
  · omega
  · split <;> omega

/-- Union arm encoding with an `i8` payload: the reserved slot is
patched to a BLK4 frame (`set_len32`) whose body is a single INT1 item
carrying the variant index as its tag. -/
theorem serialize_newtype_variant_i8 (tag vi : Nat) (hvi : vi < 65536)
    (v : Int) :
    serialize_newtype_variant vi (serialize_i8 v) ⟨[], some tag⟩ =
      .ok ⟨set_len32 tag (push_byte vi (v % 256).toNat).length
            ++ push_byte vi (v % 256).toNat, some tag⟩ := by
  unfold serialize_newtype_variant serialize_i8
  dsimp only
  rw [Nat.mod_eq_of_lt hvi]
  simp only [List.nil_append, List.length_nil, Nat.zero_add, Nat.sub_zero,
    List.length_append, List.length_replicate, List.take_zero]
  rw [show tag_len tag + 1 + 4 + (push_byte vi (v % 256).toNat).length
        - (tag_len tag + 1 + 4) = (push_byte vi (v % 256).toNat).length by omega]
  rw [List.drop_left' (by simp :
    (List.replicate (tag_len tag + 1 + 4) (0 : Nat)).length = tag_len tag + 1 + 4)]

/-- Reading an `i8` field when the lookahead already holds the matching
INT1 header. -/
theorem deserialize_i8_lookahead (t2 : Nat) (v : Int) (h1 : -128 ≤ v)
    (h2 : v ≤ 127) (rest : List Nat) (k : Nat) :
    deserialize_i8 ⟨⟨(v % 256).toNat % 256 :: rest, k, some ⟨.INT1, t2⟩⟩,
        some t2⟩ =
      (.ok v, ⟨⟨rest, k + 1, none⟩, some t2⟩) := by
  unfold deserialize_i8 get_wire
  dsimp only
  rw [get_tag_lookahead .INT1 t2 ((v % 256).toNat % 256 :: rest) k]
  dsimp only
  unfold visit_integer read_int
  rw [show get_slice 1 ⟨(v % 256).toNat % 256 :: rest, k, none⟩
        = (.ok [(v % 256).toNat % 256], ⟨rest, k + 1, none⟩) from
      @get_slice_split [(v % 256).toNat % 256] rest _ 1 rfl rfl]
  dsimp only
  have hb : (v % 256).toNat % 256 = (v % 256).toNat :=
    Nat.mod_eq_of_lt (by omega)
  rw [hb, show fromLE [(v % 256).toNat] = (v % 256).toNat by simp [fromLE],
    toSigned8_emod v h1 h2, if_pos ⟨h1, h2⟩]

/-- C10: the tag written inside a union's BLK4 frame is exactly the
serde `variant_index` (0-based): serializing an arm with index `vi` and
an `i8` payload produces a `set_len32` BLK4 frame whose body is a single
INT1 item under tag `vi`, and the union deserializer reads that tag back
and returns it directly as the variant index together with the decoded
payload. -/
theorem C10_union_variant_index (tag vi : Nat) (ht : tag < 65536)
    (hvi : vi < 65536) (v : Int) (h1 : -128 ≤ v) (h2 : v ≤ 127) :
    serialize_newtype_variant vi (serialize_i8 v) ⟨[], some tag⟩ =
      .ok ⟨set_len32 tag (push_byte vi (v % 256).toNat).length
            ++ push_byte vi (v % 256).toNat, some tag⟩
    ∧ ∃ st', deserialize_union_i8
        ⟨⟨set_len32 tag (push_byte vi (v % 256).toNat).length
            ++ push_byte vi (v % 256).toNat, 0, none⟩, some tag⟩
      = (.ok (vi, v), st') := by
  refine ⟨serialize_newtype_variant_i8 tag vi hvi v, ?_⟩
  have hblen : (push_byte vi (v % 256).toNat).length < 2 ^ (8 * 4) := by
    unfold push_byte
    have hle := tag_len_le vi
    have hptl := push_tag_length .INT1 vi
    simp only [List.length_append, hptl]
    norm_num
    omega
  refine ⟨⟨⟨[], (tag_len tag + 1) + 4 + ((tag_len vi + 1) + 1), none⟩, some vi⟩, ?_⟩
  unfold deserialize_union_i8
  dsimp only
  unfold get_wire
  dsimp only
  rw [show (set_len32 tag (push_byte vi (v % 256).toNat).length
        ++ push_byte vi (v % 256).toNat : List Nat)
      = push_tag .BLK4 tag
        ++ (leBytes 4 (push_byte vi (v % 256).toNat).length
            ++ push_byte vi (v % 256).toNat) by
    simp [set_len32, push_tag, List.append_assoc]]
  rw [get_tag_exact .BLK4 tag ht _ 0]
  dsimp only
  rw [show read_len .BLK4
        ⟨leBytes 4 (push_byte vi (v % 256).toNat).length
          ++ push_byte vi (v % 256).toNat, 0 + (tag_len tag + 1), none⟩
      = (.ok (push_byte vi (v % 256).toNat).length,
          ⟨push_byte vi (v % 256).toNat, 0 + (tag_len tag + 1) + 4, none⟩) from
    read_uint_leBytes 4 (push_byte vi (v % 256).toNat).length hblen
      (push_byte vi (v % 256).toNat) (0 + (tag_len tag + 1)) none]
  dsimp only
  rw [show (push_byte vi (v % 256).toNat : List Nat)
      = push_tag .INT1 vi ++ ((v % 256).toNat % 256 :: []) from rfl]
  rw [get_next_tag_value_push .INT1 vi hvi ((v % 256).toNat % 256 :: [])
    (0 + (tag_len tag + 1) + 4)]
  dsimp only
  rw [deserialize_i8_lookahead vi v h1 h2 []
    (0 + (tag_len tag + 1) + 4 + (tag_len vi + 1))]
  dsimp only
  rw [show 0 + (tag_len tag + 1) + 4 + (tag_len vi + 1) + 1
        = (tag_len tag + 1) + 4 + ((tag_len vi + 1) + 1) by omega]

/-- Witness for C10 at the first declared arm (`variant_index = 0`,
encoded with inner tag 0) under outer tag 2 with payload 42. -/
theorem C10_union_variant_index_witness :
    serialize_newtype_variant 0 (serialize_i8 42) ⟨[], some 2⟩ =
      .ok ⟨set_len32 2 (push_byte 0 ((42 : Int) % 256).toNat).length
            ++ push_byte 0 ((42 : Int) % 256).toNat, some 2⟩
    ∧ ∃ st', deserialize_union_i8
        ⟨⟨set_len32 2 (push_byte 0 ((42 : Int) % 256).toNat).length
            ++ push_byte 0 ((42 : Int) % 256).toNat, 0, none⟩, some 2⟩
      = (.ok (0, 42), st') :=
  C10_union_variant_index 2 0 (by decide) (by decide) 42 (by decide) (by decide)

end SerdeIop
